import Mathlib

/-!
Verification of the APL open-core toolchain (compiler front end in
src/src/runic-map.js, bytecode interpreter in src/src/apl-runtime.js)
against its natural-language specification.

The interpreter is embedded as a step function over an explicit machine
state.  JavaScript numbers are modelled as exact rationals with separate
`nan` and `undefined` values (the programs under study perform no
floating-point rounding that the claims depend on); `Math.random()` is
modelled as an oracle argument; JS `Map`s are association lists whose
`set` updates in place and appends new keys, matching insertion order.
-/

namespace APL
namespace Runtime

/-- The quantum register object built by `opQuantumInit`
(apl-runtime.js:187-205): qubit count, amplitude vector (pairs
real/imag), and the `entangled` bookkeeping list of qubit index pairs. -/
structure QState where
  numQubits : ℚ
  amplitudes : List (ℚ × ℚ)
  entangled : List (ℚ × ℚ)
deriving DecidableEq

/-- Runtime values: JS numbers split into finite rationals and `nan`;
`undefined` is what `Array.prototype.pop` yields on an
empty array and what `Map.get` yields for an absent key; `qstate` is the
quantum-state object pushed by `opQuantumInit`. -/
inductive Value where
  | num (x : ℚ)
  | nan
  | undefined
  | qstate (s : QState)
deriving DecidableEq

/-- JS truthiness for the modelled values: `0`, `NaN` and `undefined` are
falsy, every other number and every object is truthy. -/
def truthy : Value → Bool
  | .num x => x ≠ 0
  | .nan => false
  | .undefined => false
  | .qstate _ => true

/-- Association-list lookup (JS `Map.get`, as `Option`). -/
def lookupA {α : Type} (m : List (String × α)) (k : String) : Option α :=
  (m.find? (fun p => p.1 == k)).map Prod.snd

/-- JS `Map.set`: update in place when the key exists (keeping its
position), append otherwise. -/
def mapSet {α : Type} (m : List (String × α)) (k : String) (v : α) :
    List (String × α) :=
  if m.any (fun p => p.1 == k) then
    m.map (fun p => if p.1 == k then (k, v) else p)
  else m ++ [(k, v)]

/-- Memory maps bind names to values. -/
abbrev MemMap := List (String × Value)

/-- JS `Map.get` for memory maps: an absent key reads as `undefined`. -/
def mapGet (m : MemMap) (k : String) : Value :=
  (lookupA m k).getD .undefined

/-- A function-table entry registered by `opFuncDecl`
(apl-runtime.js:531-536): parameter names, entry address `pc + 1`, and
the `isAsync` flag. -/
structure FuncDef where
  params : List String
  address : Int
  isAsync : Bool
deriving DecidableEq

/-- A call-stack frame (apl-runtime.js:375-378): the caller's program
counter and a copy (`new Map(this.memory)`) of the caller's memory. -/
structure Frame where
  pc : Int
  memory : MemMap
deriving DecidableEq

/-- Expression nodes consumed by `evalExpression`
(apl-runtime.js:547-564): identifiers, literals, and call expressions
(the `..` range form). -/
inductive Expr where
  | identifier (value : String)
  | literal (value : Value)
  | callExpression (callee : String) (arguments : List Expr)

/-- Bytecode instructions, one constructor per opcode handled by
`executeInstruction` (apl-runtime.js:50-121).  The source spells the
loop variable field `variable` and the callee field `function`; those are
Lean keywords or near-keywords, so they appear here as `varName` and
`fname`. -/
inductive Instr where
  | memLoad (source : String)
  | memStore (target : String)
  | quantumInit (args : List Value)
  | quantumMeasure
  | jump (target : Int)
  | jumpIf (target : Int)
  | call (fname : String) (argCount : Nat)
  | ret
  | loop (iterable : Expr) (varName : String)
  | funcDecl (name : String) (params : List String) (isAsync : Bool)
  | pushConst (value : Value)
  | loopEnd
  | add
  | sub
  | mul
  | div

/-- The interpreter's mutable state (the `APLRuntime` instance fields,
apl-runtime.js:8-18).  The evaluation stack keeps its top at the head
(JS pushes and pops at the array's end); the call stack keeps the most
recent frame at the head. -/
structure State where
  memory : MemMap
  stack : List Value
  callStack : List Frame
  functions : List (String × FuncDef)
  globals : MemMap
  quantumState : Option QState
  pc : Int
  running : Bool
deriving DecidableEq

/-- The state of a freshly constructed `APLRuntime`. -/
def initialState : State :=
  { memory := [], stack := [], callStack := [], functions := [],
    globals := [], quantumState := none, pc := 0, running := false }

/-- One instruction either completes with a new state or raises
(JS `throw`), carrying the state as mutated up to the throw. -/
inductive StepResult where
  | ok (st : State)
  | fault (error : String) (st : State)
deriving DecidableEq

/-- `this.stack.pop()`: on an empty array JS returns `undefined` and
leaves the array empty — it does not throw. -/
def popValue (st : State) : Value × State :=
  match st.stack with
  | [] => (.undefined, st)
  | v :: rest => (v, { st with stack := rest })

/-- `opMemLoad` (apl-runtime.js:127-133): `memory.get(s) || globals.get(s)`,
then a fatal error when the combined value is `undefined`.  The `||`
falls through to globals whenever the memory value is falsy, not only
when it is absent. -/
def opMemLoad (source : String) (st : State) : StepResult :=
  let value :=
    if truthy (mapGet st.memory source) then mapGet st.memory source
    else mapGet st.globals source
  if value = .undefined then .fault ("Undefined variable: " ++ source) st
  else .ok { st with stack := value :: st.stack }

/-- `opMemStore` (apl-runtime.js:135-138): pop and bind. -/
def opMemStore (target : String) (st : State) : StepResult :=
  let (value, st1) := popValue st
  .ok { st1 with memory := mapSet st1.memory target value }

/-- `initQuantumAmplitudes` (apl-runtime.js:200-205): a vector of
2^numQubits zero amplitudes with index 0 set to 1. -/
def initQuantumAmplitudes (numQubits : Nat) : List (ℚ × ℚ) :=
  (List.replicate (2 ^ numQubits) ((0 : ℚ), (0 : ℚ))).set 0 (1, 0)

/-- `opQuantumInit` (apl-runtime.js:187-198):
`numQubits = instruction.args[0]?.value || 1` (missing or falsy first
argument defaults to 1), then a fresh state whose amplitude vector is
built by `initQuantumAmplitudes`, stored and pushed.  `args` holds the
`.value` of each argument node.  A non-integer or negative qubit count
makes `new Array(size)` throw a `RangeError`. -/
def opQuantumInit (args : List Value) (st : State) : StepResult :=
  let numQubits := match args.head? with
    | some v => if truthy v then v else .num 1
    | none => .num 1
  match numQubits with
  | .num q =>
      if q.den = 1 ∧ 0 ≤ q.num then
        let qs : QState := ⟨q, initQuantumAmplitudes q.num.toNat, []⟩
        .ok { st with quantumState := some qs, stack := .qstate qs :: st.stack }
      else .fault "Invalid array length" st
  | _ => .fault "Invalid array length" st

/-- The sampling loop of `opQuantumMeasure` (apl-runtime.js:296-306):
`result` starts at 0; walk the probabilities accumulating `cumulative`
and break at the first index where `random < cumulative`. -/
def sampleOutcome (random : ℚ) : Nat → ℚ → List ℚ → Nat
  | _, _, [] => 0
  | i, cumulative, p :: rest =>
      if random < cumulative + p then i
      else sampleOutcome random (i + 1) (cumulative + p) rest

/-- The collapse map of `opQuantumMeasure` (apl-runtime.js:309-311):
`amplitudes.map((_, i) => i === result ? {1,0} : {0,0})`, written with an
explicit running index. -/
def collapse (result : Nat) : Nat → List (ℚ × ℚ) → List (ℚ × ℚ)
  | _, [] => []
  | i, _ :: rest =>
      (if i = result then ((1 : ℚ), (0 : ℚ)) else (0, 0)) :: collapse result (i + 1) rest

/-- `opQuantumMeasure` (apl-runtime.js:285-314): squared-magnitude
probabilities, cumulative sampling against the uniform draw `random`,
collapse to a one-hot vector at the sampled index, push the index. -/
def opQuantumMeasure (random : ℚ) (st : State) : StepResult :=
  match st.quantumState with
  | none => .fault "Quantum state not initialized" st
  | some qs =>
      let probabilities := qs.amplitudes.map (fun a => a.1 * a.1 + a.2 * a.2)
      let result := sampleOutcome random 0 0 probabilities
      let newAmps := collapse result 0 qs.amplitudes
      .ok { st with quantumState := some { qs with amplitudes := newAmps },
                    stack := .num result :: st.stack }

/-- `opJump` (apl-runtime.js:363-365): `pc = target - 1`, compensating
the driver's post-increment. -/
def opJump (target : Int) (st : State) : StepResult :=
  .ok { st with pc := target - 1 }

/-- `opJumpIf` (apl-runtime.js:367-372). -/
def opJumpIf (target : Int) (st : State) : StepResult :=
  let (condition, st1) := popValue st
  if truthy condition then .ok { st1 with pc := target - 1 } else .ok st1

/-- The argument-collection loop of `opCall` (apl-runtime.js:387-390):
`argCount` pops, each `unshift`ed, so the list ends up in push order
(deepest first). -/
def popArgs : Nat → State → List Value × State
  | 0, st => ([], st)
  | n + 1, st =>
      let (v, st1) := popValue st
      let (args, st2) := popArgs n st1
      (args ++ [v], st2)

/-- The parameter-binding loop of `opCall` (apl-runtime.js:392-394):
`params.forEach((param, i) => memory.set(param.name, args[i]))` — the
bindings are `set` onto the existing memory map, and a missing argument
reads as `undefined`. -/
def bindParams : MemMap → List String → List Value → MemMap
  | mem, [], _ => mem
  | mem, p :: ps, args => bindParams (mapSet mem p (args.headD .undefined)) ps args.tail

/-- `opCall` (apl-runtime.js:374-398): push a frame holding the caller's
pc and a copy of its memory, look up the callee (a missing callee is
fatal, with the frame already pushed), pop the arguments, bind the
parameters onto the current memory map, and jump to `address - 1`. -/
def opCall (fname : String) (argCount : Nat) (st : State) : StepResult :=
  let st0 := { st with callStack := ⟨st.pc, st.memory⟩ :: st.callStack }
  match lookupA st0.functions fname with
  | none => .fault ("Undefined function: " ++ fname) st0
  | some func =>
      let (args, st1) := popArgs argCount st0
      .ok { st1 with memory := bindParams st1.memory func.params args,
                     pc := func.address - 1 }

/-- `opReturn` (apl-runtime.js:400-415): with an empty call stack, stop
the machine; otherwise pop the frame, restore pc and memory, and re-push
the value currently on top of the stack (a peek, not a pop) unless it is
`undefined`. -/
def opReturn (st : State) : StepResult :=
  match st.callStack with
  | [] => .ok { st with running := false }
  | frame :: restFrames =>
      let returnValue := st.stack.head?
      let st1 := { st with callStack := restFrames, pc := frame.pc,
                           memory := frame.memory }
      match returnValue with
      | some v => if v = .undefined then .ok st1 else .ok { st1 with stack := v :: st1.stack }
      | none => .ok st1

/-- What `evalExpression` can return: a single value (identifier or
literal node) or an array (range or the default `return []`). -/
inductive EvalVal where
  | val (v : Value)
  | arr (items : List Value)

/-- `evalExpression` (apl-runtime.js:547-564): identifiers read
`memory.get || globals.get`; literals return their value; a
`CallExpression` whose callee is `..` builds
`Array.from({length: end - start}, (_, i) => start + i)` (a non-numeric
or negative length coerces to an empty array); everything else returns
`[]`. -/
def evalExpression (st : State) : Expr → EvalVal
  | .identifier value =>
      .val (if truthy (mapGet st.memory value) then mapGet st.memory value
            else mapGet st.globals value)
  | .literal value => .val value
  | .callExpression callee arguments =>
      if callee = ".." then
        match arguments with
        | a0 :: a1 :: _ =>
            match evalExpression st a0, evalExpression st a1 with
            | .val (.num s), .val (.num e) =>
                .arr ((List.range (⌊e - s⌋).toNat).map (fun i => .num (s + i)))
            | _, _ => .arr []
        | _ => .arr []
      else .arr []

/-- The TypeError raised wherever the interpreter reads
`this.bytecode.length`: no statement of apl-runtime.js ever assigns
`this.bytecode` (`execute` keeps its `bytecode` parameter local), so the
field reads as `undefined` and the `.length` access throws. -/
def bytecodeFieldFault : String :=
  "Cannot read properties of undefined (reading length)"

/-- `opLoop` (apl-runtime.js:417-448): evaluate the iterable; iterating a
non-array value throws; with a non-empty array the first iteration binds
the loop variable and then the body scan reads `this.bytecode.length`
(see `bytecodeFieldFault`) and throws; with an empty array the
skip-to-`LOOP_END` scan performs the same read and throws. -/
def opLoop (iterable : Expr) (varName : String) (st : State) : StepResult :=
  match evalExpression st iterable with
  | .val _ => .fault "iterable is not iterable" st
  | .arr [] => .fault bytecodeFieldFault st
  | .arr (item :: _) =>
      .fault bytecodeFieldFault { st with memory := mapSet st.memory varName item }

/-- `opFuncDecl` (apl-runtime.js:531-545): register the function with
entry address `pc + 1`, then the body-skip scan reads
`this.bytecode.length` (see `bytecodeFieldFault`) and throws. -/
def opFuncDecl (name : String) (params : List String) (isAsync : Bool)
    (st : State) : StepResult :=
  let st1 := { st with
    functions := mapSet st.functions name ⟨params, st.pc + 1, isAsync⟩ }
  .fault bytecodeFieldFault st1

/-- JS `+` on the modelled operands: two finite numbers add; any
`undefined` or `NaN` operand coerces to `NaN` (the programs under study
never add objects or strings). -/
def jsAdd : Value → Value → Value
  | .num a, .num b => .num (a + b)
  | _, _ => .nan

/-- JS `-` on the modelled operands. -/
def jsSub : Value → Value → Value
  | .num a, .num b => .num (a - b)
  | _, _ => .nan

/-- JS `*` on the modelled operands. -/
def jsMul : Value → Value → Value
  | .num a, .num b => .num (a * b)
  | _, _ => .nan

/-- JS `/` on the modelled operands, reached only after `opDiv`'s
`b === 0` check (so the `.num _ / .num 0` case is unreachable there). -/
def jsDiv : Value → Value → Value
  | .num a, .num b => .num (a / b)
  | _, _ => .nan

/-- `opAdd` (apl-runtime.js:502-506): pop right, pop left, push sum. -/
def opAdd (st : State) : StepResult :=
  let (b, st1) := popValue st
  let (a, st2) := popValue st1
  .ok { st2 with stack := jsAdd a b :: st2.stack }

/-- `opSub` (apl-runtime.js:508-512). -/
def opSub (st : State) : StepResult :=
  let (b, st1) := popValue st
  let (a, st2) := popValue st1
  .ok { st2 with stack := jsSub a b :: st2.stack }

/-- `opMul` (apl-runtime.js:514-518). -/
def opMul (st : State) : StepResult :=
  let (b, st1) := popValue st
  let (a, st2) := popValue st1
  .ok { st2 with stack := jsMul a b :: st2.stack }

/-- `opDiv` (apl-runtime.js:520-525): pop right, pop left, throw
`Division by zero` when the right operand is strictly equal to 0, else
push the quotient. -/
def opDiv (st : State) : StepResult :=
  let (b, st1) := popValue st
  let (a, st2) := popValue st1
  if b = .num 0 then .fault "Division by zero" st2
  else .ok { st2 with stack := jsDiv a b :: st2.stack }

/-- `executeInstruction` (apl-runtime.js:50-121): opcode dispatch.
`random` is the oracle standing for `Math.random()` inside
`opQuantumMeasure`.  `PUSH_CONST` pushes its value and `LOOP_END` is a
no-op, both inline in the source's switch. -/
def executeInstruction (random : ℚ) (st : State) : Instr → StepResult
  | .memLoad source => opMemLoad source st
  | .memStore target => opMemStore target st
  | .quantumInit args => opQuantumInit args st
  | .quantumMeasure => opQuantumMeasure random st
  | .jump target => opJump target st
  | .jumpIf target => opJumpIf target st
  | .call fname argCount => opCall fname argCount st
  | .ret => opReturn st
  | .loop iterable varName => opLoop iterable varName st
  | .funcDecl name params isAsync => opFuncDecl name params isAsync st
  | .pushConst value => .ok { st with stack := value :: st.stack }
  | .loopEnd => .ok st
  | .add => opAdd st
  | .sub => opSub st
  | .mul => opMul st
  | .div => opDiv st

/-- What `execute` returns (apl-runtime.js:34-44): `{success:true,
result: top of stack or null}` on completion, `{success:false, error,
pc}` when an instruction throws. -/
inductive ExecResult where
  | ok (result : Option Value) (st : State)
  | err (error : String) (pc : Int) (st : State)
deriving DecidableEq

/-- The `success` discriminant of an `execute` result. -/
def ExecResult.success : ExecResult → Bool
  | .ok .. => true
  | .err .. => false

/-- The `error` field of an `execute` result. -/
def ExecResult.errorMsg : ExecResult → Option String
  | .ok .. => none
  | .err e .. => some e

/-- The `result` field of an `execute` result. -/
def ExecResult.resultVal : ExecResult → Option Value
  | .ok r _ => r
  | .err .. => none

/-- The machine state when `execute` returned. -/
def ExecResult.finalState : ExecResult → State
  | .ok _ st => st
  | .err _ _ st => st

/-- Fetch `bytecode[pc]`: a negative index reads as `undefined` in JS and
destructuring it throws. -/
def fetch (bytecode : List Instr) (pc : Int) : Option Instr :=
  if 0 ≤ pc then bytecode.get? pc.toNat else none

/-- The fetch-dispatch-increment loop of `execute` (apl-runtime.js:28-32),
step-indexed by `fuel` (the source's `while` has no bound; every claim
below supplies enough fuel for its program).  On loop exit the result is
the top of stack or null; a throw is caught and surfaced with the pc the
machine held at the throw. -/
def runLoop (random : ℚ) (bytecode : List Instr) :
    Nat → State → Option ExecResult
  | 0, _ => none
  | fuel + 1, st =>
      if st.pc < (bytecode.length : Int) ∧ st.running then
        match fetch bytecode st.pc with
        | none => some (.err "Cannot read properties of undefined" st.pc st)
        | some instruction =>
            match executeInstruction random st instruction with
            | .ok st1 => runLoop random bytecode fuel { st1 with pc := st1.pc + 1 }
            | .fault error st1 => some (.err error st1.pc st1)
      else some (.ok st.stack.head? st)

/-- `execute` (apl-runtime.js:23-45): reset `pc` to 0, set `running`, run
the loop. -/
def execute (random : ℚ) (bytecode : List Instr) (fuel : Nat)
    (st : State) : Option ExecResult :=
  runLoop random bytecode fuel { st with pc := 0, running := true }

/-- The state carried inside a `StepResult`, mutated up to completion or
up to the throw. -/
def StepResult.stateOf : StepResult → State
  | .ok st => st
  | .fault _ st => st

/-- Scenario E of the spec, hand-compiled: declare `add2(a, b) { return
a + b }`, push 5 and 3, call it. -/
def scenarioE : List Instr :=
  [ .funcDecl "add2" ["a", "b"] false,
    .memLoad "a", .memLoad "b", .add, .ret,
    .pushConst (.num 5), .pushConst (.num 3),
    .call "add2" 2 ]

/-- Scenario C of the spec, hand-compiled: loop the variable `i` over the
range `0..3`, storing it each iteration. -/
def scenarioC : List Instr :=
  [ .loop (.callExpression ".." [.literal (.num 0), .literal (.num 3)]) "i",
    .memLoad "i", .memStore "slot", .loopEnd ]

/-- A caller state for exercising `opCall`: one declared function `f(a)`
at address 5, a caller binding `z = 9`, and the argument 7 on the
stack. -/
def c3State : State :=
  { initialState with functions := [("f", ⟨["a"], 5, false⟩)],
                      memory := [("z", .num 9)], stack := [.num 7] }

/-- A one-qubit state collapsed onto basis index 1, for exercising
`opQuantumMeasure`. -/
def c9State : State :=
  { initialState with quantumState := some ⟨1, [(0, 0), (1, 0)], []⟩ }

end Runtime
end APL

namespace APL
namespace Quantum

/-!
The quantum-gate kernel `applyHadamard` (apl-runtime.js:230-253) and the
amplitude initializer, modelled over an arbitrary field so that the
claim about it can be read over the exact reals (the spec's
"within floating-point tolerance" round-trip is exact there): the
source's `Math.sqrt(2)` becomes the `sqrt2` argument, instantiated with
`Real.sqrt 2` in the theorems.
-/

/-- `initQuantumAmplitudes` (apl-runtime.js:200-205) over a field `K`:
2^numQubits zero amplitudes with index 0 set to 1 (pairs are
real/imaginary components). -/
def initQuantumAmplitudes (K : Type) [Field K] (numQubits : Nat) : List (K × K) :=
  (List.replicate (2 ^ numQubits) ((0 : K), (0 : K))).set 0 (1, 0)

variable {K : Type} [Field K]

/-- One iteration of the `applyHadamard` loop (apl-runtime.js:235-250):
at an index with the target bit clear, read the pair `i`, `j = i | bit`
from the old amplitudes and write the two Hadamard combinations into the
accumulator; reading past the array (JS `undefined` destructuring) is
the `none` case; at an index with the target bit set, do nothing. -/
def hadamardPairAt (sqrt2 : K) (old : List (K × K)) (t i : Nat)
    (acc : List (K × K)) : Option (List (K × K)) :=
  if i &&& (1 <<< t) == 0 then
    let j := i ||| (1 <<< t)
    match old.get? i, old.get? j with
    | some a0, some a1 =>
        some ((acc.set i ((a0.1 + a1.1) / sqrt2, (a0.2 + a1.2) / sqrt2)).set j
              ((a0.1 - a1.1) / sqrt2, (a0.2 - a1.2) / sqrt2))
    | _, _ => none
  else some acc

/-- The `for` loop of `applyHadamard`, from index `i` to the end of the
old amplitude vector, threading the new-amplitudes accumulator. -/
def hadamardLoop (sqrt2 : K) (old : List (K × K)) (t : Nat) (i : Nat)
    (acc : List (K × K)) : Option (List (K × K)) :=
  if _h : i < old.length then
    match hadamardPairAt sqrt2 old t i acc with
    | some acc2 => hadamardLoop sqrt2 old t (i + 1) acc2
    | none => none
  else some acc
termination_by old.length - i

/-- `applyHadamard` (apl-runtime.js:230-253): run the loop over every
index, starting from a copy of the amplitudes
(`newAmplitudes = [...amplitudes]`). -/
def applyHadamard (sqrt2 : K) (target : Nat) (amps : List (K × K)) :
    Option (List (K × K)) :=
  hadamardLoop sqrt2 amps target 0 amps

/-- The closed form of a target-0 Hadamard pass on an even-length
vector: each consecutive pair `(a, b)` becomes
`((a+b)/√2, (a-b)/√2)`. -/
def hadPairs (sqrt2 : K) : List (K × K) → List (K × K)
  | a0 :: a1 :: rest =>
      ((a0.1 + a1.1) / sqrt2, (a0.2 + a1.2) / sqrt2) ::
      ((a0.1 - a1.1) / sqrt2, (a0.2 - a1.2) / sqrt2) :: hadPairs sqrt2 rest
  | l => l

end Quantum
end APL

namespace APL

namespace RunicMap

/-- `RunicMap.asciiToRunic` (runic-map.js:9-64), in the source object's
insertion order: ASCII operation spellings to runic glyphs, plus the
`T.*` type-word spellings. -/
def asciiToRunic : List (String × String) :=
  [ ("Q.super", "ᛩ"), ("Q.gate", "ᛜ"), ("Q.entangle", "ᙠ"), ("Q.teleport", "ᛪ"),
    ("G.cross", "ᚴ"), ("G.fitness", "ᚠ"), ("G.mutate", "ᚥ"),
    ("N.net", "ᚾ"), ("N.match", "ᛈ"), ("N.synapse", "ᛒ"), ("N.learn", "ᚻ"),
    ("C.phi", "ᚳ"), ("C.integrate", "ᛇ"),
    ("S.reason", "ᛊ"), ("S.graph", "ᛕ"),
    ("R.osc", "ᛟ"), ("R.sync", "ᚱ"),
    ("M.access", "ᛗ"),
    ("D.dist", "ᛞ"), ("D.unify", "ᚢ"), ("D.bind", "ᛂ"),
    ("C.rate", "ᚤ"), ("C.yield", "ᛘ"), ("C.init", "ᛎ"),
    ("T.quantum", "QReg"), ("T.spike", "Spike"), ("T.neuron", "Neuron"),
    ("T.synapse", "Synapse"), ("T.int", "Int"), ("T.float", "Float"),
    ("T.bool", "Bool"), ("T.array", "Array"), ("T.map", "Map"),
    ("T.qstate", "QState"), ("T.epr", "EPR") ]

/-- The keys of `asciiToRunic` sorted by descending length
(runic-map.js:82-83; `Array.prototype.sort` is stable), paired with
their replacements. -/
def sortedKeys : List (String × String) :=
  [ ("C.integrate", "ᛇ"),
    ("Q.entangle", "ᙠ"), ("Q.teleport", "ᛪ"),
    ("G.fitness", "ᚠ"), ("N.synapse", "ᛒ"), ("T.quantum", "QReg"),
    ("T.synapse", "Synapse"),
    ("G.mutate", "ᚥ"), ("S.reason", "ᛊ"), ("M.access", "ᛗ"),
    ("T.neuron", "Neuron"), ("T.qstate", "QState"),
    ("Q.super", "ᛩ"), ("G.cross", "ᚴ"), ("N.match", "ᛈ"), ("N.learn", "ᚻ"),
    ("S.graph", "ᛕ"), ("D.unify", "ᚢ"), ("C.yield", "ᛘ"), ("T.spike", "Spike"),
    ("T.float", "Float"), ("T.array", "Array"),
    ("Q.gate", "ᛜ"), ("R.sync", "ᚱ"), ("D.dist", "ᛞ"), ("D.bind", "ᛂ"),
    ("C.rate", "ᚤ"), ("C.init", "ᛎ"), ("T.bool", "Bool"),
    ("N.net", "ᚾ"), ("C.phi", "ᚳ"), ("R.osc", "ᛟ"), ("T.int", "Int"),
    ("T.map", "Map"), ("T.epr", "EPR") ]

/-- Whether `pat` is an initial segment of `l`. -/
def startsWith : List Char → List Char → Bool
  | [], _ => true
  | _ :: _, [] => false
  | p :: ps, c :: cs => p == c && startsWith ps cs

/-- `result.split(pattern).join(replacement)` (runic-map.js:87): replace
every non-overlapping occurrence of `pat`, scanning left to right.
`fuel` only drives structural termination; every step consumes at least
one character, so `fuel = length` never runs out. -/
def replaceAllGo (pat repl : List Char) : Nat → List Char → List Char
  | 0, l => l
  | _ + 1, [] => []
  | fuel + 1, c :: rest =>
      if ¬ pat.isEmpty ∧ startsWith pat (c :: rest) then
        repl ++ replaceAllGo pat repl fuel ((c :: rest).drop pat.length)
      else c :: replaceAllGo pat repl fuel rest

/-- Replace every occurrence of `pat` by `repl`. -/
def replaceAll (pat repl l : List Char) : List Char :=
  replaceAllGo pat repl l.length l

/-- `RunicMap.toRunic` (runic-map.js:78-91): apply every replacement,
longest key first. -/
def toRunic (code : String) : String :=
  ⟨sortedKeys.foldl (fun acc kv => replaceAll kv.1.toList kv.2.toList acc)
    code.toList⟩

end RunicMap

namespace Compiler

/-- The resolved descriptor a RUNE token carries
(runic-map.js runicAlphabet values): operation verb, hardware unit,
description. -/
structure OpInfo where
  op : String
  hw : String
  desc : String
deriving DecidableEq

/-- `APLCompiler.runicAlphabet` as the source file stores it.  The keys
are three-character sequences (the file holds the UTF-8 bytes of each
rune re-decoded as cp1252, e.g. `á›©` for `ᛩ`, some ending in a
no-break space), so a lookup keyed by a single character never
matches. -/
def runicAlphabet : List (String × OpInfo) :=
  [ ("á›©", ⟨"QUANTUM_SUPERPOSITION", "QFU", "Quantum Superposition Engine"⟩),
    ("á›œ", ⟨"QUANTUM_GATE", "QFU", "Quantum Gate Executor"⟩),
    ("á™ ", ⟨"ENTANGLEMENT", "QFU", "Entanglement Generator"⟩),
    ("á›ª", ⟨"QUANTUM_TELEPORT", "QFU", "Quantum Teleportation"⟩),
    ("áš´", ⟨"GENETIC_CROSSOVER", "GEU", "Genetic Crossover Accelerator"⟩),
    ("áš ", ⟨"FITNESS_EVAL", "GEU", "Fitness Evaluation Unit"⟩),
    ("áš¥", ⟨"MUTATION", "GEU", "Variance/Mutation Generator"⟩),
    ("áš¾", ⟨"NEURAL_NETWORK", "NPU", "Neural Network Accelerator"⟩),
    ("á›ˆ", ⟨"PATTERN_MATCH", "NPU", "Pattern Matching (BLOOM)"⟩),
    ("á›", ⟨"TRIPARTITE_SYNAPSE", "NPU", "Tripartite Synapse Processor"⟩),
    ("áš»", ⟨"HEBBIAN_LEARNING", "NPU", "Hebbian Learning Engine"⟩),
    ("áš³", ⟨"CONSCIOUSNESS", "CU", "Consciousness (Î¦) Calculator"⟩),
    ("á›‡", ⟨"INFORMATION_INTEGRATION", "CU", "Information Integration"⟩),
    ("á›Š", ⟨"SYMBOLIC_REASONING", "SRE", "Symbolic Reasoning Engine"⟩),
    ("á›•", ⟨"KNOWLEDGE_GRAPH", "SRE", "Knowledge Graph Processor"⟩),
    ("á›Ÿ", ⟨"OSCILLATOR", "RU", "Oscillator (Resonance)"⟩),
    ("áš±", ⟨"RESONANCE_SYNC", "RU", "Resonance Synchronizer"⟩),
    ("á›—", ⟨"MEMORY_ACCESS", "MU", "Memory Access (Quantum + Classical)"⟩),
    ("á›ž", ⟨"DISTRIBUTE", "COORD", "Distribution Coordinator"⟩),
    ("áš¢", ⟨"UNIFY", "COORD", "Unification (Neurosymbolic)"⟩),
    ("á›‚", ⟨"BIND", "COORD", "Junction/Binding Unit"⟩),
    ("áš¤", ⟨"LEARNING_RATE", "CTRL", "Learning Rate Modulator"⟩),
    ("á›˜", ⟨"YIELD", "CTRL", "Yield (Concurrency)"⟩),
    ("á›Ž", ⟨"INITIALIZE", "CTRL", "Zero/Initialize"⟩),
    ("áš¹", ⟨"WAVE_PROPAGATION", "NPU", "Wave Propagation"⟩) ]

/-- `APLCompiler.dataTypes`, with the same doubly-encoded keys. -/
def dataTypes : List (String × String) :=
  [ ("á›œáš¢á›©áš¾á›áš¢á›—", "Quantum"),
    ("á›Šá›ˆá›‡á›•á™ ", "Spike"),
    ("áš¾á™ áš¢áš±á›Ÿáš¾", "Neuron"),
    ("á›Šá›˜áš¾á›©á›ˆá›Šá™ ", "Synapse"),
    ("á›‡áš¾á›", "Int"),
    ("áš áš¤á›Ÿá›©á›", "Float"),
    ("á›‚á›Ÿá›Ÿáš¤", "Bool"),
    ("á›©áš±áš±á›©á›˜", "Array"),
    ("á›—á›©á›ˆ", "Map"),
    ("á›œá›Šá›á›©á›á™ ", "QState"),
    ("á™ áš¾á›á›©áš¾á˜›áš¤á™ á›—á™ áš¾á›", "EPR") ]

/-- Association-list lookup keyed by strings. -/
def lookupS {α : Type} (m : List (String × α)) (k : String) : Option α :=
  (m.find? (fun p => p.1 == k)).map Prod.snd

/-- A token's `value` field: a string for every token except NUMBER,
whose value is the parsed number. -/
inductive TokVal where
  | str (s : String)
  | num (q : ℚ)
deriving DecidableEq

/-- Tokens (runic-map.js:236-305): type tag, value, and the per-type
metadata (`op` for RUNE, `dataType` for TYPE). -/
structure Token where
  ttype : String
  value : TokVal
  opInfo : Option OpInfo := none
  dataType : Option String := none
deriving DecidableEq

/-- `isWhitespace` (runic-map.js:315-317): the JS `\s` class, restricted
to the characters that can occur here. -/
def isWhitespaceChar (c : Char) : Bool :=
  c == ' ' || c == '\t' || c == '\n' || c == '\r' ||
  c == '\x0b' || c == '\x0c' || c == ' '

/-- `isDigit` (runic-map.js:319-321): `/[0-9]/`. -/
def isDigitChar (c : Char) : Bool := '0' ≤ c && c ≤ '9'

/-- `isAlpha` (runic-map.js:323-325): `/[a-zA-Z]/`. -/
def isAlphaChar (c : Char) : Bool :=
  ('a' ≤ c && c ≤ 'z') || ('A' ≤ c && c ≤ 'Z')

/-- `isKeyword` (runic-map.js:327-330). -/
def isKeyword (word : String) : Bool :=
  word == "function" || word == "if" || word == "else" || word == "for" ||
  word == "while" || word == "return" || word == "let" || word == "const" ||
  word == "var"

/-- Digit run to a natural number. -/
def digitsToNat : List Char → Nat → Nat
  | [], acc => acc
  | c :: cs, acc => digitsToNat cs (acc * 10 + (c.toNat - 48))

/-- `parseFloat` on a word of digits and dots (runic-map.js:272): integer
part, then the fraction after the first dot (a second dot ends the
parse, as it does for JS `parseFloat`). -/
def parseFloatQ (s : List Char) : ℚ :=
  let intDigits := s.takeWhile isDigitChar
  let rest := s.dropWhile isDigitChar
  match rest with
  | '.' :: rest2 =>
      let fracDigits := rest2.takeWhile isDigitChar
      (digitsToNat intDigits 0 : ℚ) +
        (digitsToNat fracDigits 0 : ℚ) / ((10 : ℚ) ^ fracDigits.length)
  | _ => (digitsToNat intDigits 0 : ℚ)

/-- The string value of a token (used where the parser reads `.value` of
a non-NUMBER token). -/
def strVal : TokVal → String
  | .str s => s
  | .num _ => ""

/-- `APLCompiler.tokenize` (runic-map.js:227-313), one branch per case
of the source's scan, with `fuel` as the structural bound on the number
of steps (each step consumes at least one character, so
`fuel = length + 1` never runs out).  The runic-symbol lookup and the
type-word lead test compare one character against the file's
three-character keys, so both always miss; a character matching no
branch is skipped. -/
def tokenizeGo : Nat → List Char → List Token
  | 0, _ => []
  | _ + 1, [] => []
  | fuel + 1, c :: cs =>
      match lookupS runicAlphabet (String.singleton c) with
      | some info =>
          { ttype := "RUNE", value := .str (String.singleton c),
            opInfo := some info } :: tokenizeGo fuel cs
      | none =>
          if String.singleton c == "á›œ" || String.singleton c == "á›Š" ||
              String.singleton c == "áš¾" then
            let word := (c :: cs).takeWhile
              (fun ch => ¬ isWhitespaceChar ch ∧ ch ≠ '(' ∧ ch ≠ ')')
            let rest := (c :: cs).dropWhile
              (fun ch => ¬ isWhitespaceChar ch ∧ ch ≠ '(' ∧ ch ≠ ')')
            let wordS : String := ⟨word⟩
            (match lookupS dataTypes wordS with
             | some dt => { ttype := "TYPE", value := .str wordS, dataType := some dt }
             | none => { ttype := "IDENTIFIER", value := .str wordS }) ::
              tokenizeGo fuel rest
          else if isDigitChar c then
            let numChars := (c :: cs).takeWhile (fun ch => isDigitChar ch ∨ ch = '.')
            let rest := (c :: cs).dropWhile (fun ch => isDigitChar ch ∨ ch = '.')
            { ttype := "NUMBER", value := .num (parseFloatQ numChars) } ::
              tokenizeGo fuel rest
          else if isWhitespaceChar c then
            tokenizeGo fuel cs
          else if c == '(' || c == ')' || c == '{' || c == '}' ||
              c == '[' || c == ']' then
            { ttype := "DELIMITER", value := .str (String.singleton c) } ::
              tokenizeGo fuel cs
          else if c == '+' || c == '-' || c == '*' || c == '/' || c == '=' then
            { ttype := "OPERATOR", value := .str (String.singleton c) } ::
              tokenizeGo fuel cs
          else if isAlphaChar c then
            let word := (c :: cs).takeWhile
              (fun ch => isAlphaChar ch ∨ isDigitChar ch ∨ ch = '_')
            let rest := (c :: cs).dropWhile
              (fun ch => isAlphaChar ch ∨ isDigitChar ch ∨ ch = '_')
            let wordS : String := ⟨word⟩
            { ttype := if isKeyword wordS then "KEYWORD" else "IDENTIFIER",
              value := .str wordS } :: tokenizeGo fuel rest
          else
            tokenizeGo fuel cs

/-- Tokenize a source string. -/
def tokenize (code : String) : List Token :=
  tokenizeGo (code.toList.length + 1) code.toList

end Compiler

end APL

namespace APL
namespace Compiler

/-- AST nodes (runic-map.js:339-415). -/
inductive Node where
  | numberLiteral (value : ℚ)
  | hardwareOperation (operation : String) (hardwareUnit : String)
      (description : String) (params : List Node)
  | identifier (name : String)
  | functionDeclaration (name : String) (params : List String) (body : List Node)
  | program (body : List Node)
  | unknown (value : Token)

/-- The parameter-name loop of a function declaration
(runic-map.js:386-393): collect `.value` of each token up to the closing
paren, skipping commas. -/
def funcParams : Nat → List Token → List String × List Token
  | 0, ts => ([], ts)
  | _ + 1, [] => ([], [])
  | fuel + 1, t :: rest =>
      if t.value == .str ")" then ([], t :: rest)
      else
        let rest1 := match rest with
          | t2 :: _ => if t2.value == .str "," then rest.drop 1 else rest
          | [] => rest
        let (ps, rest2) := funcParams fuel rest1
        (strVal t.value :: ps, rest2)

mutual

/-- The parser's `walk` (runic-map.js:336-416), on the token suffix from
the cursor; returns the node and the remaining suffix, or `none` where
the source would read `.type` of an undefined token (a thrown TypeError
the `compile` wrapper catches).  `fuel` is the structural bound; every
call consumes at least one token, so `fuel = tokens + 1` never runs
out. -/
def walkGo : Nat → List Token → Option (Node × List Token)
  | 0, _ => none
  | _ + 1, [] => none
  | fuel + 1, t :: rest =>
      if t.ttype == "NUMBER" then
        match t.value with
        | .num q => some (.numberLiteral q, rest)
        | .str _ => some (.numberLiteral 0, rest)
      else if t.ttype == "RUNE" then
        let info := t.opInfo.getD ⟨"", "", ""⟩
        match rest with
        | t2 :: _ =>
            if t2.value == .str "(" then
              match walkParams fuel (rest.drop 1) with
              | some (params, rest2) =>
                  some (.hardwareOperation info.op info.hw info.desc params,
                        rest2.drop 1)
              | none => none
            else some (.hardwareOperation info.op info.hw info.desc [], rest)
        | [] => some (.hardwareOperation info.op info.hw info.desc [], rest)
      else if t.ttype == "IDENTIFIER" then
        some (.identifier (strVal t.value), rest)
      else if t.ttype == "KEYWORD" && t.value == .str "function" then
        match rest with
        | [] => none
        | tn :: rest1 =>
            let name := strVal tn.value
            let rest2 := rest1.drop 1
            let (params, rest3) := funcParams (rest2.length + 1) rest2
            let rest4 := (rest3.drop 1).drop 1
            match walkBody fuel rest4 with
            | some (body, rest5) =>
                some (.functionDeclaration name params body, rest5.drop 1)
            | none => none
      else
        some (.unknown t, rest)

/-- The rune-argument loop (runic-map.js:358-367): walk comma-separated
arguments until the closing paren (or the end of the tokens). -/
def walkParams : Nat → List Token → Option (List Node × List Token)
  | 0, _ => none
  | _ + 1, [] => some ([], [])
  | fuel + 1, t :: rest =>
      if t.value == .str ")" then some ([], t :: rest)
      else
        match walkGo fuel (t :: rest) with
        | some (node, rest1) =>
            let rest2 := match rest1 with
              | t2 :: _ => if t2.value == .str "," then rest1.drop 1 else rest1
              | [] => rest1
            match walkParams fuel rest2 with
            | some (nodes, rest3) => some (node :: nodes, rest3)
            | none => none
        | none => none

/-- The function-body loop (runic-map.js:397-400): walk statements until
the closing brace (or the end of the tokens). -/
def walkBody : Nat → List Token → Option (List Node × List Token)
  | 0, _ => none
  | _ + 1, [] => some ([], [])
  | fuel + 1, t :: rest =>
      if t.value == .str "\x7d" then some ([], t :: rest)
      else
        match walkGo fuel (t :: rest) with
        | some (node, rest1) =>
            match walkBody fuel rest1 with
            | some (nodes, rest2) => some (node :: nodes, rest2)
            | none => none
        | none => none

end

/-- The top-level parse loop (runic-map.js:418-427): walk until the
token list is exhausted, collecting a `Program` node. -/
def parseBody : Nat → List Token → Option (List Node)
  | 0, _ => none
  | _ + 1, [] => some []
  | fuel + 1, t :: rest =>
      match walkGo (fuel + 1) (t :: rest) with
      | some (node, rest1) =>
          match parseBody fuel rest1 with
          | some nodes => some (node :: nodes)
          | none => none
      | none => none

/-- `APLCompiler.parse`. -/
def parse (tokens : List Token) : Option Node :=
  (parseBody (tokens.length + 1) tokens).map Node.program

end Compiler
end APL

namespace APL
namespace Compiler

/-- Lowered values (runic-map.js:438-473): hardware-operation
instructions, tagged numbers, variable references, function descriptors,
and nodes of other types returned unchanged by `traverse`. -/
inductive LowNode where
  | opNode (operation : String) (hardwareUnit : String) (params : List LowNode)
  | number (value : ℚ)
  | varRef (name : String)
  | funcNode (name : String) (params : List String) (body : List LowNode)
  | raw (node : Node)

/-- The generator's output object (runic-map.js:432-436). -/
structure Compiled where
  operations : List LowNode
  hardwareMap : List (String × List LowNode)
  executionPlan : List LowNode

/-- Append an instruction to its category's bucket, creating the bucket
on first use (runic-map.js:448-451). -/
def addToMap (m : List (String × List LowNode)) (hw : String) (node : LowNode) :
    List (String × List LowNode) :=
  match lookupS m hw with
  | some lst =>
      m.map (fun p => if p.1 == hw then (hw, lst ++ [node]) else p)
  | none => m ++ [(hw, [node])]

mutual

/-- The generator's `traverse` (runic-map.js:438-474), with the
operations and hardware-map accumulators threaded explicitly (the source
mutates `code`).  A `HardwareOperation` lowers its arguments first (the
object literal evaluates its `params` before the push), then appends
itself to `operations` and to its category's bucket.  `fuel` is the
structural bound; it exceeds the node count on every modelled input. -/
def traverse : Nat → Node → Compiled → LowNode × Compiled
  | 0, node, code => (.raw node, code)
  | fuel + 1, node, code =>
      match node with
      | .hardwareOperation op hw _ params =>
          let (ps, code1) := traverseList fuel params code
          let opn := LowNode.opNode op hw ps
          (opn, { code1 with operations := code1.operations ++ [opn],
                             hardwareMap := addToMap code1.hardwareMap hw opn })
      | .numberLiteral v => (.number v, code)
      | .identifier name => (.varRef name, code)
      | .functionDeclaration name params body =>
          let (bs, code1) := traverseList fuel body code
          (.funcNode name params bs, code1)
      | other => (.raw other, code)

/-- `node.params.map(p => traverse(p))`, left to right. -/
def traverseList : Nat → List Node → Compiled → List LowNode × Compiled
  | 0, _, code => ([], code)
  | _ + 1, [], code => ([], code)
  | fuel + 1, n :: ns, code =>
      let (l, code1) := traverse fuel n code
      let (ls, code2) := traverseList fuel ns code1
      (l :: ls, code2)

end

/-- `APLCompiler.generate` (runic-map.js:431-483): lower each top-level
node of the program body in order into `executionPlan`, accumulating
`operations` and `hardwareMap`. -/
def generate (fuel : Nat) (ast : Node) : Compiled :=
  match ast with
  | .program body =>
      body.foldl
        (fun code node =>
          let (l, code1) := traverse fuel node code
          { code1 with executionPlan := code1.executionPlan ++ [l] })
        ⟨[], [], []⟩
  | _ => ⟨[], [], []⟩

/-- What `APLCompiler.compile` (runic-map.js:486-504) returns: the
success record or the caught error. -/
inductive CompileResult where
  | success (code : Compiled) (tokens : List Token) (ast : Node)
  | failure (error : String)

/-- `APLCompiler.compile`: tokenize, parse, generate; a thrown parse
error surfaces as `{success:false, error}`.  The generator's fuel is the
token count plus one, an upper bound on the AST's node count. -/
def compile (source : String) : CompileResult :=
  let tokens := tokenize source
  match parse tokens with
  | some ast => .success (generate (tokens.length + 1) ast) tokens ast
  | none => .failure "Compilation error"

/-- The `operations` list of a compilation (empty on failure). -/
def CompileResult.operations : CompileResult → List LowNode
  | .success code _ _ => code.operations
  | .failure _ => []

/-- The `executionPlan` list of a compilation (empty on failure). -/
def CompileResult.executionPlan : CompileResult → List LowNode
  | .success code _ _ => code.executionPlan
  | .failure _ => []

/-- Whether a compilation succeeded. -/
def CompileResult.ok : CompileResult → Bool
  | .success .. => true
  | .failure _ => false

end Compiler
end APL


/-!
Theorems.  Each claim of the specification is settled by one named
theorem below (with a witness where the theorem carries hypotheses, and
a counterexample where the claim fails on the code).
-/

namespace APL
namespace Runtime

/-- A truthy value is never `undefined`. -/
theorem truthy_not_undefined {v : Value} (h : truthy v = true) : v ≠ .undefined := by
  intro hv; subst hv; simp [truthy] at h

/-- C2 (counterexample): the claim says an instruction that pops an empty
evaluation stack aborts the run with `success:false`; executing `add` on
an empty stack in fact completes with `success:true` (JS
`Array.prototype.pop` yields `undefined`, and `undefined + undefined`
is `NaN`). -/
theorem stack_underflow_counterexample :
    (execute 0 [Instr.add] 2 initialState).map ExecResult.success = some true := by
  decide

/-- C2 (amended): popping an empty evaluation stack is not a fault:
`pop` yields `undefined`, so `add`, `sub`, `mul` and `div` executed on
an empty stack push `NaN` and the run returns `success:true` with
result `NaN`, while `store` binds `undefined` to its target name and
returns `success:true` with result `null`. -/
theorem stack_underflow_behavior :
    execute 0 [Instr.add] 2 initialState =
      some (.ok (some .nan) { initialState with stack := [.nan], pc := 1, running := true }) ∧
    execute 0 [Instr.sub] 2 initialState =
      some (.ok (some .nan) { initialState with stack := [.nan], pc := 1, running := true }) ∧
    execute 0 [Instr.mul] 2 initialState =
      some (.ok (some .nan) { initialState with stack := [.nan], pc := 1, running := true }) ∧
    execute 0 [Instr.div] 2 initialState =
      some (.ok (some .nan) { initialState with stack := [.nan], pc := 1, running := true }) ∧
    execute 0 [Instr.memStore "x"] 2 initialState =
      some (.ok none { initialState with memory := [("x", .undefined)], pc := 1, running := true }) := by
  refine ⟨?_, ?_, ?_, ?_, ?_⟩ <;> decide

/-- C7: executing `div` with numeric operands faults with
`Division by zero` (surfaced as `{success:false, error, pc}`) exactly
when the right-hand (top) operand is 0, and otherwise pushes the exact
quotient `a / b` — a `num` value, never `NaN` and never an infinity
(the value type has none). -/
theorem div_by_zero_behavior (random a b : ℚ) (rest : List Value) (st : State) :
    execute random [.div] 2 { st with stack := .num b :: .num a :: rest } =
      some (if b = 0 then
        .err "Division by zero" 0 { st with stack := rest, pc := 0, running := true }
      else
        .ok (some (.num (a / b)))
          { st with stack := .num (a / b) :: rest, pc := 1, running := true }) := by
  by_cases hb : b = 0 <;>
    simp [execute, runLoop, fetch, executeInstruction, opDiv, popValue, jsDiv, hb]

/-- C6 (amended): `load` pushes the memory binding only when that
binding is truthy; a falsy or absent memory binding falls through to
globals (`memory.get(x) || globals.get(x)`), and the instruction faults
with `Undefined variable` precisely when the memory value is falsy or
absent and the name is not in globals.  In particular a memory binding
of `0` is not pushed. -/
theorem load_lookup_behavior (random : ℚ) (source : String) (st : State) :
    execute random [.memLoad source] 2 st =
      some (
        if truthy (mapGet st.memory source) then
          .ok (some (mapGet st.memory source))
            { st with stack := mapGet st.memory source :: st.stack,
                      pc := 1, running := true }
        else if mapGet st.globals source = .undefined then
          .err ("Undefined variable: " ++ source) 0 { st with pc := 0, running := true }
        else
          .ok (some (mapGet st.globals source))
            { st with stack := mapGet st.globals source :: st.stack,
                      pc := 1, running := true }) := by
  by_cases t1 : truthy (mapGet st.memory source)
  · have hne := truthy_not_undefined t1
    simp [execute, runLoop, fetch, executeInstruction, opMemLoad, t1, hne]
  · by_cases t2 : mapGet st.globals source = .undefined <;>
      simp [execute, runLoop, fetch, executeInstruction, opMemLoad, t1, t2]

/-- C6 (counterexample): the claim says a name bound in current-frame
memory has its value pushed whatever it is; with memory binding `x = 0`
and empty globals, `load x` instead faults with `Undefined variable: x`
even though `x` is bound in memory. -/
theorem load_falsy_counterexample :
    execute 0 [Instr.memLoad "x"] 2 { initialState with memory := [("x", .num 0)] } =
      some (.err "Undefined variable: x" 0
        { initialState with memory := [("x", .num 0)], pc := 0, running := true }) ∧
    lookupA [("x", Value.num 0)] "x" = some (Value.num 0) := by
  exact ⟨by decide, by decide⟩

/-- C4 (code bug): the spec's scenario E (declare `add2(a, b)` returning
`a + b`, call it with 5 and 3, expect 8 on the stack and the caller's
memory restored) cannot run: executing the `FUNC_DECL` instruction reads
`this.bytecode.length`, and no statement of the runtime ever assigns
`this.bytecode`, so the run aborts at pc 0 with a TypeError after
registering the function. -/
theorem function_call_scenario_faults :
    execute 0 scenarioE 20 initialState =
      some (.err bytecodeFieldFault 0
        { initialState with functions := [("add2", ⟨["a", "b"], 1, false⟩)],
                            pc := 0, running := true }) := by
  decide

/-- C5 (code bug): the spec's scenario C (a `loop` over the range
`[0,3)` storing the loop variable, expected to complete with
`success:true` and the slot holding 2) cannot run: the loop body scan
reads the never-assigned `this.bytecode`, so the run aborts at pc 0 with
a TypeError after binding the loop variable to the first element 0. -/
theorem loop_scenario_faults :
    execute 0 scenarioC 10 initialState =
      some (.err bytecodeFieldFault 0
        { initialState with memory := [("i", .num 0)], pc := 0, running := true }) := by
  have h3 : (⌊(3:ℚ) - 0⌋ : Int) = 3 := by norm_num
  simp [scenarioC, execute, runLoop, fetch, executeInstruction, opLoop,
        evalExpression, h3, mapSet, initialState, List.range_succ]

/-- C10: `init` with no argument, or with a falsy first argument value
(such as 0), initializes a default 1-qubit state: amplitude vector
`[{1,0}, {0,0}]`, one-hot at index 0, stored as the new quantum state
and pushed onto the evaluation stack. -/
theorem quantum_init_default_one_qubit (st : State) (args : List Value)
    (h : args = [] ∨ ∃ v rest, args = v :: rest ∧ truthy v = false) :
    opQuantumInit args st =
      .ok { st with quantumState := some ⟨1, [(1, 0), (0, 0)], []⟩,
                    stack := .qstate ⟨1, [(1, 0), (0, 0)], []⟩ :: st.stack } := by
  have hinit : initQuantumAmplitudes 1 = [((1:ℚ), (0:ℚ)), (0, 0)] := by
    norm_num [initQuantumAmplitudes, List.replicate]
  rcases h with h | ⟨v, rest, hargs, hv⟩
  · subst h
    simp [opQuantumInit, hinit]
  · subst hargs
    simp [opQuantumInit, hv, hinit]

/-- C10 (witness): `init` with the single argument 0 on a fresh runtime
builds the default 1-qubit state and pushes it. -/
theorem quantum_init_default_one_qubit_witness :
    opQuantumInit [Value.num 0] initialState =
      .ok { initialState with quantumState := some ⟨1, [(1, 0), (0, 0)], []⟩,
                              stack := [.qstate ⟨1, [(1, 0), (0, 0)], []⟩] } :=
  quantum_init_default_one_qubit initialState [Value.num 0]
    (Or.inr ⟨Value.num 0, [], rfl, rfl⟩)

/-- The argument-collection loop of `opCall` pops `n` values and returns
them deepest-first: the reverse of the top `n` of the stack. -/
theorem popArgs_take_drop : ∀ (n : Nat) (st : State), n ≤ st.stack.length →
    popArgs n st = ((st.stack.take n).reverse, { st with stack := st.stack.drop n })
  | 0, st, _ => by simp [popArgs]
  | n + 1, st, h => by
      match hst : st.stack with
      | [] => simp [hst] at h
      | v :: rest =>
          have hr : n ≤ rest.length := by
            simpa [hst] using Nat.le_of_succ_le_succ (by simpa [hst] using h)
          have ih := popArgs_take_drop n { st with stack := rest } (by simpa using hr)
          simp [popArgs, popValue, hst, ih]

/-- C3 (amended): a `call` of a defined callee with `argCount` equal to
its parameter count and enough stack pushes a frame holding the caller's
pc and full memory map, pops the arguments, and binds the parameters
positionally (deepest argument to the first parameter) by `set`ting them
onto the caller's existing memory map — the callee's memory is not a
fresh map, so every caller binding whose name is not a parameter remains
visible in the callee. -/
theorem call_binds_into_caller_memory (fname : String) (n : Nat) (st : State)
    (params : List String) (addr : Int) (isA : Bool)
    (hf : lookupA st.functions fname = some ⟨params, addr, isA⟩)
    (_hn : params.length = n) (hs : n ≤ st.stack.length) :
    opCall fname n st =
      .ok { st with
        callStack := ⟨st.pc, st.memory⟩ :: st.callStack,
        stack := st.stack.drop n,
        memory := bindParams st.memory params ((st.stack.take n).reverse),
        pc := addr - 1 } := by
  have hpop := popArgs_take_drop n
    { st with callStack := ⟨st.pc, st.memory⟩ :: st.callStack } (by simpa using hs)
  simp [opCall, hf, hpop]

/-- C3 (witness): calling `f(a)` from a caller with memory `z = 9` and
the argument 7 on the stack takes the amended theorem's shape. -/
theorem call_binds_into_caller_memory_witness :
    opCall "f" 1 c3State =
      .ok { c3State with
        callStack := [⟨0, [("z", .num 9)]⟩],
        stack := c3State.stack.drop 1,
        memory := bindParams c3State.memory ["a"] ((c3State.stack.take 1).reverse),
        pc := 5 - 1 } :=
  call_binds_into_caller_memory "f" 1 c3State ["a"] 5 false rfl rfl (by decide)

/-- C3 (counterexample): the claim says the callee starts with a fresh
memory map containing exactly its parameter names; calling `f(a)` with
caller memory `z = 9` leaves memory `[z = 9, a = 7]`, which is not the
fresh map `[a = 7]` — the caller's binding is carried over. -/
theorem call_memory_counterexample :
    (opCall "f" 1 c3State).stateOf.memory = [("z", .num 9), ("a", .num 7)] ∧
    [("z", Value.num 9), ("a", Value.num 7)] ≠ [("a", Value.num 7)] := by
  exact ⟨by decide, by decide⟩

/-- The sampling loop returns the index of the probability-1 entry: the
zero prefix accumulates no probability mass (needs `0 ≤ r`), and the
entry 1 triggers the break (needs `r < 1`). -/
theorem sampleOutcome_zeros (r : ℚ) (h0 : 0 ≤ r) (h1 : r < 1) (m : Nat) :
    ∀ (k i : Nat),
      sampleOutcome r i 0 (List.replicate k 0 ++ 1 :: List.replicate m 0) = i + k
  | 0, i => by simp [sampleOutcome, h1]
  | k + 1, i => by
      have ih := sampleOutcome_zeros r h0 h1 m k (i + 1)
      have hn : ¬ r < 0 := not_lt.mpr h0
      simp [List.replicate_succ, sampleOutcome, hn, ih]
      omega

/-- Collapsing at an index below the running position leaves a zero tail
unchanged. -/
theorem collapse_replicate_gt (r : Nat) :
    ∀ (m i : Nat), r < i →
      collapse r i (List.replicate m ((0:ℚ), (0:ℚ))) = List.replicate m (0, 0)
  | 0, _, _ => by simp [collapse]
  | m + 1, i, h => by
      have ih := collapse_replicate_gt r m (i + 1) (Nat.lt_succ_of_lt h)
      have hne : ¬ i = r := by omega
      simpa [List.replicate_succ, collapse, hne] using ih

/-- Collapsing a one-hot vector at its own hot index reproduces it. -/
theorem collapse_one_hot :
    ∀ (k j m : Nat),
      collapse (j + k) j
        (List.replicate k ((0:ℚ), (0:ℚ)) ++ (1, 0) :: List.replicate m (0, 0)) =
      List.replicate k (0, 0) ++ (1, 0) :: List.replicate m (0, 0)
  | 0, j, m => by
      have hgt := collapse_replicate_gt j m (j + 1) (Nat.lt_succ_self j)
      simpa [collapse] using hgt
  | k + 1, j, m => by
      have ih := collapse_one_hot k (j + 1) m
      have hne : ¬ j = j + (k + 1) := by omega
      have harg : j + 1 + k = j + (k + 1) := by omega
      rw [harg] at ih
      simpa [List.replicate_succ, collapse, hne] using ih

/-- C9: `measure` on a one-hot amplitude vector (probability 1 at index
`k`) pushes `k` for every uniform draw `r` in `[0,1)` and leaves the
machine state — in particular the amplitude vector — unchanged. -/
theorem measure_one_hot_idempotent (r : ℚ) (st : State) (nq : ℚ)
    (ent : List (ℚ × ℚ)) (k m : Nat)
    (hq : st.quantumState =
      some ⟨nq, List.replicate k (0, 0) ++ (1, 0) :: List.replicate m (0, 0), ent⟩)
    (h0 : 0 ≤ r) (h1 : r < 1) :
    opQuantumMeasure r st = .ok { st with stack := .num k :: st.stack } := by
  have hprobs :
      (List.replicate k ((0:ℚ), (0:ℚ)) ++ (1, 0) :: List.replicate m (0, 0)).map
          (fun a : ℚ × ℚ => a.1 * a.1 + a.2 * a.2) =
        List.replicate k 0 ++ 1 :: List.replicate m 0 := by
    norm_num [List.map_replicate]
  have hsample := sampleOutcome_zeros r h0 h1 m k 0
  have hcol := collapse_one_hot k 0 m
  simp only [Nat.zero_add] at hsample hcol
  simp only [opQuantumMeasure, hq, hprobs, hsample, hcol]

/-- C9 (witness): measuring the collapsed state one-hot at index 1 with
the draw 1/2 pushes 1 and leaves the state unchanged. -/
theorem measure_one_hot_idempotent_witness :
    (0:ℚ) ≤ 1/2 ∧
    opQuantumMeasure (1/2) c9State = .ok { c9State with stack := [.num ((1:ℕ) : ℚ)] } :=
  ⟨by norm_num,
   measure_one_hot_idempotent (1/2) c9State 1 [] 1 0 rfl (by norm_num) (by norm_num)⟩

end Runtime
end APL

namespace APL
namespace Quantum

variable {K : Type} [Field K]

/-- `hadPairs` preserves length. -/
theorem hadPairs_length (sqrt2 : K) :
    ∀ l : List (K × K), (hadPairs sqrt2 l).length = l.length
  | [] => rfl
  | [_] => rfl
  | _ :: _ :: rest => by simp [hadPairs, hadPairs_length sqrt2 rest]

/-- `hadPairs` distributes over an append at an even cut. -/
theorem hadPairs_append (sqrt2 : K) :
    ∀ (l1 l2 : List (K × K)), Even l1.length →
      hadPairs sqrt2 (l1 ++ l2) = hadPairs sqrt2 l1 ++ hadPairs sqrt2 l2
  | [], _, _ => by simp [hadPairs]
  | [_], _, h => by simp at h
  | a :: b :: rest, l2, h => by
      have hr : Even rest.length := by
        rcases h with ⟨k, hk⟩
        simp only [List.length_cons] at hk
        exact ⟨k - 1, by omega⟩
      simp [hadPairs, hadPairs_append sqrt2 rest l2 hr]

/-- `List.set` past a prefix acts on the suffix. -/
theorem set_append_len {α : Type} : ∀ (A B : List α) (n : Nat) (x : α),
    (A ++ B).set (A.length + n) x = A ++ B.set n x
  | [], _, _, _ => by simp
  | a :: A, B, n, x => by
      simp [List.set, Nat.succ_add, set_append_len A B n x]

/-- `List.get?` past a prefix reads the suffix. -/
theorem get?_append_len {α : Type} (A B : List α) (n : Nat) :
    (A ++ B).get? (A.length + n) = B.get? n := by
  simp only [List.get?_eq_getElem?]
  rw [List.getElem?_append_right (by omega)]
  congr 1
  omega

/-- An even index has bit 0 clear. -/
theorem even_and_one (i : Nat) (h : Even i) : (i &&& 1) == 0 := by
  obtain ⟨k, rfl⟩ := h
  have : k + k = 2 * k := by omega
  rw [this, Nat.and_one_is_mod]
  simp [Nat.mul_mod_right]

/-- Setting bit 0 of an even index adds one. -/
theorem even_or_one (i : Nat) (h : Even i) : i ||| 1 = i + 1 := by
  obtain ⟨k, rfl⟩ := h
  have hk : k + k = 2 * k := by omega
  rw [hk]
  have h1 : 2 * k / 2 = k := by omega
  have h2 : (2 * k + 1) / 2 = k := by omega
  apply Nat.eq_of_testBit_eq
  intro i
  cases i with
  | zero => simp [Nat.testBit_lor, Nat.testBit_zero]; omega
  | succ j =>
      rw [Nat.testBit_lor]
      simp [Nat.testBit_succ, h1, h2, Nat.zero_testBit]

/-- The successor of an even index has bit 0 set. -/
theorem odd_and_one (i : Nat) (h : Even i) : (((i + 1) &&& 1) == 0) = false := by
  obtain ⟨k, rfl⟩ := h
  rw [Nat.and_one_is_mod]
  simp
  omega

/-- The loop invariant of a target-0 Hadamard pass: with the pairs before
the cursor already transformed and an even number of entries left, the
loop completes the `hadPairs` transform. -/
theorem hadamardLoop_inv (sqrt2 : K) (old : List (K × K)) :
    ∀ (back front : List (K × K)), old = front ++ back →
      Even front.length → Even back.length →
      hadamardLoop sqrt2 old 0 front.length (hadPairs sqrt2 front ++ back) =
        some (hadPairs sqrt2 front ++ hadPairs sqrt2 back)
  | [], front, hold, _, _ => by
      have hnot : ¬ front.length < old.length := by
        subst hold; simp
      rw [hadamardLoop, dif_neg hnot]
      simp [hadPairs]
  | [_], _, _, _, hb => by simp at hb
  | b0 :: b1 :: back', front, hold, hf, hb => by
      have hlenf : (hadPairs sqrt2 front).length = front.length :=
        hadPairs_length sqrt2 front
      have hlenold : old.length = front.length + (2 + back'.length) := by
        subst hold; simp; omega
      have hi : front.length < old.length := by omega
      have hget0 : old.get? front.length = some b0 := by
        subst hold
        simpa using get?_append_len front (b0 :: b1 :: back') 0
      have hget1 : old.get? (front.length + 1) = some b1 := by
        subst hold
        simpa using get?_append_len front (b0 :: b1 :: back') 1
      have hguard := even_and_one front.length hf
      have hor := even_or_one front.length hf
      set x : K × K := ((b0.1 + b1.1) / sqrt2, (b0.2 + b1.2) / sqrt2) with hx
      set y : K × K := ((b0.1 - b1.1) / sqrt2, (b0.2 - b1.2) / sqrt2) with hy
      have hset :
          ((hadPairs sqrt2 front ++ (b0 :: b1 :: back')).set front.length x).set
              (front.length + 1) y =
            hadPairs sqrt2 front ++ (x :: y :: back') := by
        have h0 := set_append_len (hadPairs sqrt2 front) (b0 :: b1 :: back') 0 x
        have h1 := set_append_len (hadPairs sqrt2 front) (x :: b1 :: back') 1 y
        simp only [hlenf, Nat.add_zero] at h0 h1
        rw [h0]
        simpa using h1
      have hstep :
          hadamardPairAt sqrt2 old 0 front.length
              (hadPairs sqrt2 front ++ (b0 :: b1 :: back')) =
            some (hadPairs sqrt2 front ++ (x :: y :: back')) := by
        rw [hadamardPairAt]
        simp only [Nat.shiftLeft_zero, hguard, if_true, hor, hget0, hget1]
        rw [hset]
      have hfront2 : Even (front ++ [b0, b1]).length := by
        rcases hf with ⟨k, hk⟩
        exact ⟨k + 1, by simp [hk]; omega⟩
      have hback2 : Even back'.length := by
        rcases hb with ⟨k, hk⟩
        simp only [List.length_cons] at hk
        exact ⟨k - 1, by omega⟩
      have hold2 : old = (front ++ [b0, b1]) ++ back' := by
        subst hold; simp
      have ih := hadamardLoop_inv sqrt2 old back' (front ++ [b0, b1]) hold2 hfront2 hback2
      have hpf2 : hadPairs sqrt2 (front ++ [b0, b1]) = hadPairs sqrt2 front ++ [x, y] := by
        rw [hadPairs_append sqrt2 front [b0, b1] hf]
        simp [hadPairs, hx, hy]
      rw [hpf2] at ih
      have hlen2 : (front ++ [b0, b1]).length = front.length + 2 := by simp
      rw [hlen2] at ih
      have hi1 : front.length + 1 < old.length := by omega
      have hodd := odd_and_one front.length hf
      have hstep2 :
          hadamardPairAt sqrt2 old 0 (front.length + 1)
              (hadPairs sqrt2 front ++ (x :: y :: back')) =
            some (hadPairs sqrt2 front ++ (x :: y :: back')) := by
        rw [hadamardPairAt]
        simp only [Nat.shiftLeft_zero, hodd, Bool.false_eq_true, if_false]
      calc hadamardLoop sqrt2 old 0 front.length (hadPairs sqrt2 front ++ (b0 :: b1 :: back'))
          = hadamardLoop sqrt2 old 0 (front.length + 1)
              (hadPairs sqrt2 front ++ (x :: y :: back')) := by
            rw [hadamardLoop, dif_pos hi, hstep]
        _ = hadamardLoop sqrt2 old 0 (front.length + 2)
              (hadPairs sqrt2 front ++ (x :: y :: back')) := by
            rw [hadamardLoop, dif_pos hi1, hstep2]
        _ = some (hadPairs sqrt2 front ++ hadPairs sqrt2 (b0 :: b1 :: back')) := by
            have hacc : hadPairs sqrt2 front ++ (x :: y :: back') =
                (hadPairs sqrt2 front ++ [x, y]) ++ back' := by simp
            rw [hacc, ih]
            simp [hadPairs, hx, hy]

/-- A target-0 Hadamard pass on an even-length vector is exactly
`hadPairs`. -/
theorem applyHadamard_even (sqrt2 : K) (amps : List (K × K))
    (h : Even amps.length) :
    applyHadamard sqrt2 0 amps = some (hadPairs sqrt2 amps) := by
  have := hadamardLoop_inv sqrt2 amps amps [] rfl (by simp) h
  simpa [applyHadamard, hadPairs] using this

/-- `hadPairs` is an involution whenever `sqrt2 * sqrt2 = 2` and the
field has characteristic other than 2. -/
theorem hadPairs_involutive (sqrt2 : K) (hs : sqrt2 * sqrt2 = 2)
    (h2 : (2 : K) ≠ 0) :
    ∀ l : List (K × K), hadPairs sqrt2 (hadPairs sqrt2 l) = l
  | [] => rfl
  | [_] => rfl
  | _ :: _ :: rest => by
      have hs0 : sqrt2 ≠ 0 := by
        intro h
        apply h2
        rw [← hs, h, mul_zero]
      have hcomp1 : ∀ u v : K, ((u + v) / sqrt2 + (u - v) / sqrt2) / sqrt2 = u := by
        intro u v
        field_simp
        rw [hs]
        ring
      have hcomp2 : ∀ u v : K, ((u + v) / sqrt2 - (u - v) / sqrt2) / sqrt2 = v := by
        intro u v
        field_simp
        rw [hs]
        ring
      have ih := hadPairs_involutive sqrt2 hs h2 rest
      simp [hadPairs, ih, hcomp1, hcomp2]

/-- The initial amplitude vector has length `2 ^ n`. -/
theorem initQuantumAmplitudes_length (n : Nat) :
    (initQuantumAmplitudes K n).length = 2 ^ n := by
  simp [initQuantumAmplitudes]

/-- C8: on a freshly initialized `n`-qubit state (one-hot amplitude
vector at index 0), applying the Hadamard gate to qubit 0 twice in
succession restores the original amplitude vector exactly over the
reals — Hadamard is self-inverse. -/
theorem hadamard_self_inverse (n : Nat) (hn : 1 ≤ n) :
    (applyHadamard (Real.sqrt 2) 0 (initQuantumAmplitudes ℝ n)).bind
        (applyHadamard (Real.sqrt 2) 0) =
      some (initQuantumAmplitudes ℝ n) := by
  have hs : Real.sqrt 2 * Real.sqrt 2 = 2 := Real.mul_self_sqrt (by norm_num)
  have h2 : (2 : ℝ) ≠ 0 := two_ne_zero
  have heven : Even (initQuantumAmplitudes ℝ n).length := by
    rw [initQuantumAmplitudes_length]
    exact (Nat.even_pow).mpr ⟨even_two, by omega⟩
  have h1 := applyHadamard_even (Real.sqrt 2) (initQuantumAmplitudes ℝ n) heven
  have heven2 : Even (hadPairs (Real.sqrt 2) (initQuantumAmplitudes ℝ n)).length := by
    rwa [hadPairs_length]
  have h2a := applyHadamard_even (Real.sqrt 2)
    (hadPairs (Real.sqrt 2) (initQuantumAmplitudes ℝ n)) heven2
  rw [h1]
  simp only [Option.some_bind]
  rw [h2a, hadPairs_involutive (Real.sqrt 2) hs h2]

/-- C8 (witness): the double Hadamard round-trip at the concrete qubit
count 1. -/
theorem hadamard_self_inverse_witness :
    1 ≤ 1 ∧
    (applyHadamard (Real.sqrt 2) 0 (initQuantumAmplitudes ℝ 1)).bind
        (applyHadamard (Real.sqrt 2) 0) =
      some (initQuantumAmplitudes ℝ 1) :=
  ⟨Nat.le_refl 1, hadamard_self_inverse 1 (Nat.le_refl 1)⟩

end Quantum
end APL

/-- C1 (code bug): the spec requires ASCII and rune spellings to compile
to identical `operations` and `executionPlan`, and scenario B requires
`q = Q.super(2)` (ASCII) to produce exactly one QUANTUM_SUPERPOSITION /
QFU instruction.  Evaluating the compiler: the ASCII spelling is never
mapped to a rune before tokenizing (`Q`, `super` lex as identifiers, the
dot is silently skipped), and the rune spelling misses the tokenizer's
corrupted three-character table keys, so both compilations succeed with
zero operations, and their execution plans have different lengths
(7 versus 5), hence are not identical. -/
theorem compile_scenario_b_evaluated :
    APL.RunicMap.toRunic "q = Q.super(2)" = "q = ᛩ(2)" ∧
    (APL.Compiler.compile "q = Q.super(2)").ok = true ∧
    (APL.Compiler.compile "q = Q.super(2)").operations.length = 0 ∧
    (APL.Compiler.compile (APL.RunicMap.toRunic "q = Q.super(2)")).ok = true ∧
    (APL.Compiler.compile (APL.RunicMap.toRunic "q = Q.super(2)")).operations.length = 0 ∧
    (APL.Compiler.compile "q = Q.super(2)").executionPlan.length = 7 ∧
    (APL.Compiler.compile (APL.RunicMap.toRunic "q = Q.super(2)")).executionPlan.length = 5 := by
  refine ⟨?_, ?_, ?_, ?_, ?_, ?_, ?_⟩ <;> decide
